import Mathlib

/-!
Verification of the TNN gradient-engine and kernel-registry core.

Shallow embedding of:
* `source/tnn/device/x86/acc/x86_unary2_layer_acc.cc` — the per-operator
  unary kernel registry (`RegisterUnary2Kernel`, `GetUnary2Kernel`,
  `X86_UNARY2_CALCULATE`);
* `source/tnn/device/arm/acc/gradient/arm_inner_product_grad.cc` — the ARM
  inner-product gradient kernels (`ExecWeightGrad`, `ExecInputGrad`,
  `ExecBiasGrad`, `ArmInnerProductLayerGrad::OnGrad`);
* `source/tnn/train/grad/inner_product_layer_grad.cc` — the canonical-layout
  training gradient path (`InnerProductLayerGrad::OnGrad`).

Buffers of `float` are embedded as total functions `ℕ → ℚ` (flat element
index to exact rational value); machine floats are modelled by exact
rational arithmetic.  Every in-place `+=` of the C code becomes a pointwise
functional update (`upd`), and each loop nest is expressed as a fold over
the list of updates it performs, in the source's iteration order.
-/

/-- The all-zeros buffer (`calloc`/fresh `RawBuffer` contents). -/
def zeroFun : ℕ → ℚ := fun _ => 0

/-- Buffer update `f[a] += x`: the effect of one `+=` statement of the C code. -/
def upd (f : ℕ → ℚ) (a : ℕ) (x : ℚ) : ℕ → ℚ :=
  fun n => if n = a then f a + x else f n

/-- Effect of `memset(p, 0, m * sizeof(float))`: zero the first `m` elements. -/
def memclr (m : ℕ) (f : ℕ → ℚ) : ℕ → ℚ :=
  fun n => if n < m then 0 else f n

/-- Run a sequence of `+=` updates (address, increment) left to right. -/
def applyUpds (L : List (ℕ × ℚ)) (f : ℕ → ℚ) : ℕ → ℚ :=
  L.foldl (fun g p => upd g p.1 p.2) f

theorem upd_zero (f : ℕ → ℚ) (a : ℕ) : upd f a 0 = f := by
  funext n
  unfold upd
  by_cases h : n = a
  · subst h; simp
  · simp [h]

/-- The value at `a` after a run of `+=` updates is the initial value plus the
sum of the increments addressed to `a`. -/
theorem applyUpds_apply (L : List (ℕ × ℚ)) (f : ℕ → ℚ) (a : ℕ) :
    applyUpds L f a = f a + (L.map (fun p => if p.1 = a then p.2 else 0)).sum := by
  induction L generalizing f with
  | nil => simp [applyUpds]
  | cons p L ih =>
    have hstep : applyUpds (p :: L) f = applyUpds L (upd f p.1 p.2) := rfl
    rw [hstep, ih]
    by_cases h : p.1 = a
    · subst h
      simp [upd, List.sum_cons]
      ring
    · have : upd f p.1 p.2 a = f a := by
        have ha : ¬a = p.1 := fun hh => h hh.symm
        simp [upd, ha]
      rw [this]
      simp [List.sum_cons, h]

/-- A run of `+=` updates adds a quantity independent of the initial buffer. -/
theorem applyUpds_add (L : List (ℕ × ℚ)) (f : ℕ → ℚ) (a : ℕ) :
    applyUpds L f a = f a + applyUpds L zeroFun a := by
  rw [applyUpds_apply, applyUpds_apply]
  simp [zeroFun]

/-! ## Kernel registry (`x86_unary2_layer_acc.cc`)

`std::map<LayerType, unary2_kernel_avx_func_t>` is embedded as an ordered
association list with unique keys; a stored `nullptr` becomes `none`.
`LayerType` is embedded as `ℕ` (an enum discriminator), the kernel function
type `unary2_kernel_avx_func_t = (dims, src, dst, param) → writes dst`
as a function returning the new destination contents. -/

/-- Kernel function pointer type: `(dims, src, dst, param) → new dst`. -/
def KFn : Type := List ℕ → (ℕ → ℚ) → (ℕ → ℚ) → ℕ → (ℕ → ℚ)

/-- The registry: entries `(LayerType, kernel pointer)`; `none` models a
registered null pointer. -/
def KernelMap : Type := List (ℕ × Option KFn)

/-- Error kind returned by the registry paths (`TNNERR_PARAM_ERR` with
message "can not find unary kernel"). -/
inductive RegErr where
  | kernelNotFound
  deriving DecidableEq

/-- Embeds `RegisterUnary2Kernel`: `kernel_map[type] = kernel` on a
`std::map` inserts the key or overwrites the existing entry. -/
def RegisterUnary2Kernel (m : KernelMap) (t : ℕ) (k : Option KFn) : KernelMap :=
  match m with
  | [] => [(t, k)]
  | (t', k') :: rest =>
    if t = t' then (t, k) :: rest else (t', k') :: RegisterUnary2Kernel rest t k

/-- Embeds `kernel_map.find(type)`: `none` when the key is absent. -/
def findKernel (m : KernelMap) (t : ℕ) : Option (Option KFn) :=
  match m with
  | [] => none
  | (t', k') :: rest => if t = t' then some k' else findKernel rest t

/-- Embeds `GetUnary2Kernel`: fails when the key is absent
(`kernel_map.find(type) == kernel_map.end()`) or the stored pointer is null
(`kernel_map.at(type) == nullptr`); otherwise yields the kernel. -/
def GetUnary2Kernel (m : KernelMap) (t : ℕ) : Except RegErr KFn :=
  match findKernel m t with
  | none => .error .kernelNotFound
  | some none => .error .kernelNotFound
  | some (some k) => .ok k

/-- Embeds `X86_UNARY2_CALCULATE`: resolve the kernel, propagate a lookup
failure (`RETURN_ON_NEQ`) without touching `dst`, otherwise invoke the
kernel on `dst`.  Returns (status, destination contents after the call). -/
def X86_UNARY2_CALCULATE (m : KernelMap) (t : ℕ) (dims : List ℕ)
    (src dst : ℕ → ℚ) (param : ℕ) : Option RegErr × (ℕ → ℚ) :=
  match GetUnary2Kernel m t with
  | .error e => (some e, dst)
  | .ok k => (none, k dims src dst param)

theorem findKernel_register_self (m : KernelMap) (t : ℕ) (k : Option KFn) :
    findKernel (RegisterUnary2Kernel m t k) t = some k := by
  induction m with
  | nil => simp [RegisterUnary2Kernel, findKernel]
  | cons e rest ih =>
    by_cases h : t = e.1
    · simp [RegisterUnary2Kernel, findKernel, h]
    · simp [RegisterUnary2Kernel, findKernel, h, ih]

/-- C6: dispatching an operator kind with no registered kernel fails with the
kernel-not-found error (`GetUnary2Kernel` errors, `X86_UNARY2_CALCULATE`
propagates the error), and the destination buffer is returned unmodified:
no kernel is invoked. -/
theorem getUnary2Kernel_miss_no_invoke (m : KernelMap) (t : ℕ) (dims : List ℕ)
    (src dst : ℕ → ℚ) (param : ℕ) (h : findKernel m t = none) :
    GetUnary2Kernel m t = .error .kernelNotFound ∧
      X86_UNARY2_CALCULATE m t dims src dst param = (some .kernelNotFound, dst) := by
  have hg : GetUnary2Kernel m t = .error .kernelNotFound := by
    unfold GetUnary2Kernel
    rw [h]
  exact ⟨hg, by unfold X86_UNARY2_CALCULATE; rw [hg]⟩

/-- Witness for C6 at the empty registry and kind 0. -/
theorem getUnary2Kernel_miss_no_invoke_witness :
    findKernel ([] : KernelMap) 0 = none ∧
      (GetUnary2Kernel ([] : KernelMap) 0 = .error .kernelNotFound ∧
        X86_UNARY2_CALCULATE ([] : KernelMap) 0 [3] zeroFun zeroFun 0 =
          (some .kernelNotFound, zeroFun)) :=
  ⟨rfl, getUnary2Kernel_miss_no_invoke [] 0 [3] zeroFun zeroFun 0 rfl⟩

/-- C7: registering `f1` for kind `t` and then registering `f2` for the same
kind overwrites the earlier entry, so a subsequent lookup returns `f2`
(last registration wins), whatever the prior registry contents. -/
theorem registerUnary2Kernel_last_wins (m : KernelMap) (t : ℕ) (f1 f2 : KFn) :
    GetUnary2Kernel (RegisterUnary2Kernel (RegisterUnary2Kernel m t (some f1)) t (some f2)) t =
      .ok f2 := by
  unfold GetUnary2Kernel
  rw [findKernel_register_self]

/-- C10: a null kernel pointer registered for kind `t` makes lookup fail with
exactly the same kernel-not-found error as an unregistered kind, so a
successful lookup always yields a real (callable) kernel function. -/
theorem getUnary2Kernel_null_is_miss (m : KernelMap) (t : ℕ) :
    GetUnary2Kernel (RegisterUnary2Kernel m t none) t = .error .kernelNotFound ∧
      GetUnary2Kernel ([] : KernelMap) t = .error .kernelNotFound := by
  constructor
  · unfold GetUnary2Kernel
    rw [findKernel_register_self]
  · rfl

/-! ## ARM inner-product gradient kernels (`arm_inner_product_grad.cc`)

`Float4` vector operations act on 4 consecutive lanes; a vector
`save(p, ug * x + load(p))` is 4 independent scalar `+=` at addresses
`p..p+3`, embedded as 4 `upd` steps.  Note that in the C source the
remainder tails advance the destination pointer by `ic << 2 >> 2`
(respectively `oc << 2 >> 2`), which evaluates to `ic` (resp. `oc`),
not to the round-down-to-multiple-of-4 `ic >> 2 << 2`; the embedding
reproduces that address arithmetic faithfully. -/

/-- Update list performed by `ExecWeightGrad`'s loop nest: for each batch
row `b` and output channel `i`, the width-4 main loop
`for (j = 0; j < ic - 3; j += 4)` (which runs for `j = 4t, t < ic / 4`)
does `w_ptr[j+l] += ug * x0[l]`, then the remainder loop runs
`ic % 4` times with `w_ptr` advanced by `ic << 2 >> 2 = ic` and reads
`i_ptr[j + ic]`. -/
def wgUpdates (batch oc ic : ℕ) (output_grad input : ℕ → ℚ) : List (ℕ × ℚ) :=
  (List.range batch).flatMap fun b =>
    (List.range oc).flatMap fun i =>
      (((List.range (ic / 4)).flatMap fun t =>
          (List.range 4).map fun l =>
            (ic * i + (4 * t + l), output_grad (oc * b + i) * input (ic * b + (4 * t + l))))
        ++ ((List.range (ic % 4)).map fun j =>
            (ic * i + (ic + j), input (ic * b + (j + ic)) * output_grad (oc * b + i))))

/-- Embeds `ExecWeightGrad<acc_weight>`: without accumulation it first does
`memset(weight_grad, 0, oc * ic * sizeof(float))`, then runs the
accumulation loop nest. -/
def ExecWeightGrad (acc_weight : Bool) (batch oc ic : ℕ)
    (output_grad input : ℕ → ℚ) (weight_grad : ℕ → ℚ) : ℕ → ℚ :=
  applyUpds (wgUpdates batch oc ic output_grad input)
    (if acc_weight then weight_grad else memclr (oc * ic) weight_grad)

/-- Update list performed by `ExecBiasGrad`'s general loop nest: per batch
row `b`, the width-4 main loop `for (n = 0; n < oc - 3; n += 4)` (running
for `n = 4t, t < oc / 4`) does `dst_ptr[n+l] += src_ptr[n+l]`, then the
remainder loop runs `oc % 4` times with both pointers advanced by
`oc << 2 >> 2 = oc`. -/
def biasUpdates (batch oc : ℕ) (output_grad : ℕ → ℚ) : List (ℕ × ℚ) :=
  (List.range batch).flatMap fun b =>
    (((List.range (oc / 4)).flatMap fun t =>
        (List.range 4).map fun l => (4 * t + l, output_grad (b * oc + (4 * t + l))))
      ++ ((List.range (oc % 4)).map fun n => (oc + n, output_grad (b * oc + (oc + n)))))

/-- Embeds the general path of `ExecBiasGrad<acc_bias>` (the code after the
`batch == 1 && !acc_bias` early return): optional
`memset(bias_grad, 0, batch * oc * sizeof(float))` — the source really
clears `batch * oc` elements — followed by the accumulation loop nest. -/
def ExecBiasGradGeneral (acc_bias : Bool) (batch oc : ℕ)
    (output_grad : ℕ → ℚ) (bias_grad : ℕ → ℚ) : ℕ → ℚ :=
  applyUpds (biasUpdates batch oc output_grad)
    (if acc_bias then bias_grad else memclr (batch * oc) bias_grad)

/-- Embeds `ExecBiasGrad<acc_bias>`: for `batch == 1 && !acc_bias` it is a
straight `memcpy(bias_grad, output_grad, batch * oc * sizeof(float))`;
otherwise the general accumulation path runs. -/
def ExecBiasGrad (acc_bias : Bool) (batch oc : ℕ)
    (output_grad : ℕ → ℚ) (bias_grad : ℕ → ℚ) : ℕ → ℚ :=
  if batch = 1 ∧ acc_bias = false then
    fun n => if n < batch * oc then output_grad n else bias_grad n
  else ExecBiasGradGeneral acc_bias batch oc output_grad bias_grad

/-- Modelled from the spec: `GemmFloatPackAB` (called by `ExecInputGrad`,
defined outside the provided sources) packs its operands into workspace
scratch and accumulates the matrix product into the destination:
`dst[m, n] += Σ_k A[m, k] * B[k, n]` with `M = batch`, `N = ic`,
`K = oc`, per §4.5's `input_grad[b,i] = Σ_o output_grad[b,o] * weight[o,i]`
and the packed-matmul description. -/
def GemmFloatPackAB (M N K : ℕ) (A B : ℕ → ℚ) (C : ℕ → ℚ) : ℕ → ℚ :=
  fun n =>
    if n < M * N then
      C n + ∑ k in Finset.range K, A (n / N * K + k) * B (k * N + n % N)
    else C n

/-- Embeds `ExecInputGrad<acc_input>`: without accumulation it first does
`memset(input_grad, 0, batch * ic * sizeof(float))`, then
`GemmFloatPackAB(batch, ic, oc, output_grad, .., weight, .., input_grad, ic)`
accumulates the matrix product into the destination. -/
def ExecInputGrad (acc_input : Bool) (batch oc ic : ℕ)
    (output_grad weight : ℕ → ℚ) (input_grad : ℕ → ℚ) : ℕ → ℚ :=
  GemmFloatPackAB batch ic oc output_grad weight
    (if acc_input then input_grad else memclr (batch * ic) input_grad)

/-- Error kinds surfaced by `ArmInnerProductLayerGrad::OnGrad`
(all `TNNERR_TRAIN_ERROR` statuses, distinguished by message). -/
inductive ArmErr where
  | prepMismatch
  | nullParam
  | weightDataCountError
  | dtypeNotSupported
  deriving DecidableEq

/-- Data types relevant to the gradient paths (subset of TNN's `DataType`). -/
inductive TDataType where
  | float
  | bfp16
  | int8
  deriving DecidableEq

/-- The three caller-owned destination gradient buffers of the ARM path. -/
structure ArmGradDsts where
  iGrad : ℕ → ℚ
  wGrad : ℕ → ℚ
  bGrad : ℕ → ℚ

/-- Embeds `DimsFunctionUtils::GetDim(dims, i)`: the `i`-th dimension, `1`
when the dims vector is too short. -/
def getDim (dims : List ℕ) (i : ℕ) : ℕ := (dims.drop i).headD 1

/-- Embeds `DimsVectorUtils::Count(dims, 1)`: product of the dimensions from
index 1 on. -/
def countFrom1 (dims : List ℕ) : ℕ := (dims.drop 1).prod

/-- Embeds `ArmInnerProductLayerGrad::OnGrad`.  `ON_GRAD_PREPARATION_IOR(1, 1, 2)`
(macro defined outside the provided sources; modelled from the spec's
"operator receives an unexpected number of inputs/outputs" failure) checks
the blob counts and binds the input/output-grad/resource-grad buffers and
their accumulate flags; `CHECK_PARAM_NULL` guards context/param/resource.
Then `batch`, `ic`, `oc` are read from the dims, the weight element count
is validated against `oc * ic`, and for float data the three kernels run
on the caller's destination buffers; any other dtype is rejected.
Returns (error?, destination buffers after the call): on error the
destinations are untouched. -/
def ArmInnerProductLayerGrad_OnGrad
    (numInputs numOutputs numResourceGrads : ℕ)
    (contextPresent paramPresent resourcePresent : Bool)
    (has_bias : Bool)
    (input0Dims output0Dims : List ℕ)
    (dtype : TDataType)
    (weightDataCount : ℕ)
    (acc_input_grad_0 acc_resource_grad_0 acc_resource_grad_1 : Bool)
    (input output_grad weight : ℕ → ℚ)
    (dst : ArmGradDsts) : Option ArmErr × ArmGradDsts :=
  if ¬(numInputs = 1 ∧ numOutputs = 1 ∧ numResourceGrads = 2) then (some .prepMismatch, dst)
  else if ¬(contextPresent ∧ paramPresent ∧ resourcePresent) then (some .nullParam, dst)
  else
    let batch := getDim input0Dims 0
    let ic := countFrom1 input0Dims
    let oc := getDim output0Dims 1
    if weightDataCount ≠ oc * ic then (some .weightDataCountError, dst)
    else if dtype = .float then
      (none,
        { iGrad := ExecInputGrad acc_input_grad_0 batch oc ic output_grad weight dst.iGrad
          wGrad := ExecWeightGrad acc_resource_grad_0 batch oc ic output_grad input dst.wGrad
          bGrad := if has_bias then ExecBiasGrad acc_resource_grad_1 batch oc output_grad dst.bGrad
                   else dst.bGrad })
    else (some .dtypeNotSupported, dst)

/-- Naive scalar reference for the weight gradient (§4.5):
`weight_grad[o, i] = Σ_b output_grad[b, o] * input[b, i]`. -/
def weightGradRef (batch oc ic : ℕ) (output_grad input : ℕ → ℚ) (o i : ℕ) : ℚ :=
  ∑ b in Finset.range batch, output_grad (oc * b + o) * input (ic * b + i)

/-- Naive scalar reference for the bias gradient (§4.5):
`bias_grad[o] = Σ_b output_grad[b, o]`. -/
def biasGradRef (batch oc : ℕ) (output_grad : ℕ → ℚ) (o : ℕ) : ℚ :=
  ∑ b in Finset.range batch, output_grad (b * oc + o)

/-- Concrete input buffer for the C1 failing input: `input = [5]`. -/
def c1Input : ℕ → ℚ := fun n => if n = 0 then 5 else 0

/-- Concrete output gradient for the C1 failing input: `output_grad = [3]`. -/
def c1OutputGrad : ℕ → ℚ := fun n => if n = 0 then 3 else 0

/-- Concrete weight for the C1 failing input: `weight = [7]`. -/
def c1Weight : ℕ → ℚ := fun n => if n = 0 then 7 else 0

/-- C1 (code bug): for `B = O = I = 1`, a successful `ArmInnerProductLayerGrad::OnGrad`
call (it returns `TNN_OK`) leaves `weight_grad[0,0] = 0`, while the claimed
formula gives `Σ_b output_grad[b,0] * input[b,0] = 3 * 5 = 15`: the
remainder tail of `ExecWeightGrad` advances `w_ptr` by `ic << 2 >> 2 = ic`
instead of `ic >> 2 << 2 = (ic / 4) * 4`, so for `I % 4 ≠ 0` the remainder
columns are accumulated at the wrong addresses and the true cells keep
their `memset` zeros. -/
theorem armOnGrad_weight_formula_violated :
    (ArmInnerProductLayerGrad_OnGrad 1 1 2 true true true false [1, 1] [1, 1] .float 1
        false false false c1Input c1OutputGrad c1Weight ⟨zeroFun, zeroFun, zeroFun⟩).1 = none ∧
      (ArmInnerProductLayerGrad_OnGrad 1 1 2 true true true false [1, 1] [1, 1] .float 1
        false false false c1Input c1OutputGrad c1Weight ⟨zeroFun, zeroFun, zeroFun⟩).2.wGrad 0 = 0 ∧
      weightGradRef 1 1 1 c1OutputGrad c1Input 0 0 = 15 := by
  refine ⟨rfl, by decide, ?_⟩
  norm_num [weightGradRef, Finset.sum_range_succ, c1OutputGrad, c1Input]

/-- Concrete output gradient for the C3 failing input: `output_grad = [1, 2]`
(batch 2, one output channel per row). -/
def c3OutputGrad : ℕ → ℚ := fun n => if n = 0 then 1 else if n = 1 then 2 else 0

/-- C3 (code bug): for output-channel count `oc = 1` (from the claimed set
`{1, 3, 4, 5, 8, 9}`) and `batch = 2`, the vectorized-plus-remainder
`ExecBiasGrad` produces `bias_grad[0] = 0`, while the naive scalar
reference gives `output_grad[0,0] + output_grad[1,0] = 3`: the remainder
tail advances both pointers by `oc << 2 >> 2 = oc` instead of
`(oc / 4) * 4`, so the `oc % 4` trailing channels are never accumulated
into their own cells. -/
theorem execBiasGrad_remainder_mismatch :
    ExecBiasGrad false 2 1 c3OutputGrad zeroFun 0 = 0 ∧
      biasGradRef 2 1 c3OutputGrad 0 = 3 := by
  constructor
  · decide
  · norm_num [biasGradRef, Finset.sum_range_succ, c3OutputGrad]

/-- Concrete output gradient for the C9 failing input: `output_grad = [1]`. -/
def c9OutputGrad : ℕ → ℚ := fun n => if n = 0 then 1 else 0

/-- C9 (code bug): for `batch = 1`, `oc = 1`, no accumulation, the
`memcpy` fast path of `ExecBiasGrad` yields `bias_grad[0] = 1`, but the
general path (memset followed by the per-batch accumulation loop) would
yield `bias_grad[0] = 0` on the same inputs, because its remainder tail
writes at offset `oc << 2 >> 2 = oc` instead of `(oc / 4) * 4`. -/
theorem execBiasGrad_fast_vs_general_mismatch :
    ExecBiasGrad false 1 1 c9OutputGrad zeroFun 0 = 1 ∧
      ExecBiasGradGeneral false 1 1 c9OutputGrad zeroFun 0 = 0 := by
  constructor
  · decide
  · decide

theorem execWeightGrad_acc_add (batch oc ic : ℕ) (og inp wg : ℕ → ℚ) (n : ℕ) :
    ExecWeightGrad true batch oc ic og inp wg n =
      wg n + ExecWeightGrad true batch oc ic og inp zeroFun n := by
  simp only [ExecWeightGrad, if_true]
  rw [applyUpds_apply, applyUpds_apply]
  simp [zeroFun]

theorem execWeightGrad_overwrite_ind (batch oc ic : ℕ) (og inp d d' : ℕ → ℚ) (n : ℕ)
    (hn : n < oc * ic) :
    ExecWeightGrad false batch oc ic og inp d n = ExecWeightGrad false batch oc ic og inp d' n := by
  simp only [ExecWeightGrad, Bool.false_eq_true, if_false]
  rw [applyUpds_apply, applyUpds_apply]
  simp [memclr, hn]

theorem execBiasGrad_acc_add (batch oc : ℕ) (og bg : ℕ → ℚ) (n : ℕ) :
    ExecBiasGrad true batch oc og bg n = bg n + ExecBiasGrad true batch oc og zeroFun n := by
  have hc : ¬(batch = 1 ∧ (true : Bool) = false) := by simp
  simp only [ExecBiasGrad, if_neg hc, ExecBiasGradGeneral, if_true]
  rw [applyUpds_apply, applyUpds_apply]
  simp [zeroFun]

theorem execBiasGrad_overwrite_ind (batch oc : ℕ) (hB : 0 < batch) (og d d' : ℕ → ℚ) (n : ℕ)
    (hn : n < oc) :
    ExecBiasGrad false batch oc og d n = ExecBiasGrad false batch oc og d' n := by
  have hno : n < batch * oc := lt_of_lt_of_le hn (Nat.le_mul_of_pos_left oc hB)
  unfold ExecBiasGrad
  split_ifs with hcond
  · simp [hno]
  · unfold ExecBiasGradGeneral
    simp only [Bool.false_eq_true, if_false]
    rw [applyUpds_apply, applyUpds_apply]
    simp [memclr, hno]

theorem execInputGrad_acc_add (batch oc ic : ℕ) (og w ig : ℕ → ℚ) (n : ℕ) :
    ExecInputGrad true batch oc ic og w ig n =
      ig n + ExecInputGrad true batch oc ic og w zeroFun n := by
  simp only [ExecInputGrad, GemmFloatPackAB, if_true]
  by_cases hn : n < batch * ic
  · simp [hn, zeroFun]
  · simp [hn, zeroFun]

theorem execInputGrad_overwrite_ind (batch oc ic : ℕ) (og w d d' : ℕ → ℚ) (n : ℕ)
    (hn : n < batch * ic) :
    ExecInputGrad false batch oc ic og w d n = ExecInputGrad false batch oc ic og w d' n := by
  simp only [ExecInputGrad, GemmFloatPackAB, Bool.false_eq_true, if_false]
  simp [hn, memclr]

/-- Both checks of a well-formed float call pass, so `OnGrad` returns `TNN_OK`
and runs the three kernels on the caller's destinations. -/
theorem armOnGrad_ok_components (B I O : ℕ) (hb aI aW aB : Bool)
    (inp og w : ℕ → ℚ) (d : ArmGradDsts) :
    ArmInnerProductLayerGrad_OnGrad 1 1 2 true true true hb [B, I] [B, O] .float (O * I)
        aI aW aB inp og w d =
      (none,
        { iGrad := ExecInputGrad aI B O I og w d.iGrad
          wGrad := ExecWeightGrad aW B O I og inp d.wGrad
          bGrad := if hb then ExecBiasGrad aB B O og d.bGrad else d.bGrad }) := by
  unfold ArmInnerProductLayerGrad_OnGrad
  simp [getDim, countFrom1]

/-- Destination buffers after one successful ARM OnGrad call starting from
all-zero destinations, paired with the buffers after calling OnGrad a second
time on that result (same forward tensors, same flags). -/
def armTwiceIP (B I O : ℕ) (hb aI aW aB : Bool) (inp og w : ℕ → ℚ) : ArmGradDsts × ArmGradDsts :=
  let r1 := (ArmInnerProductLayerGrad_OnGrad 1 1 2 true true true hb [B, I] [B, O] .float (O * I)
      aI aW aB inp og w ⟨zeroFun, zeroFun, zeroFun⟩).2
  (r1, (ArmInnerProductLayerGrad_OnGrad 1 1 2 true true true hb [B, I] [B, O] .float (O * I)
      aI aW aB inp og w r1).2)

/-- C4: accumulate semantics of the ARM inner-product OnGrad, for all 8
combinations of the three independent accumulate flags: with a flag set,
running OnGrad twice on the same (zero-initialized) destination doubles
the single-call result; with the flag clear, the second run reproduces the
first on every element of the destination buffer (overwrite idempotence),
independently for the input (`B*I` elements), weight (`O*I` elements) and
bias (`O` elements, when the operator has a bias) destinations. -/
theorem armOnGrad_accumulate_semantics (B I O : ℕ) (hB : 0 < B) (hb aI aW aB : Bool)
    (inp og w : ℕ → ℚ) :
    (aW = true → ∀ n, (armTwiceIP B I O hb aI aW aB inp og w).2.wGrad n =
        2 * (armTwiceIP B I O hb aI aW aB inp og w).1.wGrad n) ∧
      (aW = false → ∀ n, n < O * I → (armTwiceIP B I O hb aI aW aB inp og w).2.wGrad n =
        (armTwiceIP B I O hb aI aW aB inp og w).1.wGrad n) ∧
      (aI = true → ∀ n, (armTwiceIP B I O hb aI aW aB inp og w).2.iGrad n =
        2 * (armTwiceIP B I O hb aI aW aB inp og w).1.iGrad n) ∧
      (aI = false → ∀ n, n < B * I → (armTwiceIP B I O hb aI aW aB inp og w).2.iGrad n =
        (armTwiceIP B I O hb aI aW aB inp og w).1.iGrad n) ∧
      (hb = true → aB = true → ∀ n, (armTwiceIP B I O hb aI aW aB inp og w).2.bGrad n =
        2 * (armTwiceIP B I O hb aI aW aB inp og w).1.bGrad n) ∧
      (hb = true → aB = false → ∀ n, n < O → (armTwiceIP B I O hb aI aW aB inp og w).2.bGrad n =
        (armTwiceIP B I O hb aI aW aB inp og w).1.bGrad n) := by
  refine ⟨?_, ?_, ?_, ?_, ?_, ?_⟩
  · intro haW n
    subst haW
    simp only [armTwiceIP, armOnGrad_ok_components]
    rw [execWeightGrad_acc_add]
    ring
  · intro haW n hn
    subst haW
    simp only [armTwiceIP, armOnGrad_ok_components]
    exact execWeightGrad_overwrite_ind B O I og inp _ _ n hn
  · intro haI n
    subst haI
    simp only [armTwiceIP, armOnGrad_ok_components]
    rw [execInputGrad_acc_add]
    ring
  · intro haI n hn
    subst haI
    simp only [armTwiceIP, armOnGrad_ok_components]
    exact execInputGrad_overwrite_ind B O I og w _ _ n hn
  · intro hhb haB n
    subst hhb; subst haB
    simp only [armTwiceIP, armOnGrad_ok_components, if_true]
    rw [execBiasGrad_acc_add]
    ring
  · intro hhb haB n hn
    subst hhb; subst haB
    simp only [armTwiceIP, armOnGrad_ok_components, if_true]
    exact execBiasGrad_overwrite_ind B O hB og _ _ n hn

/-- Witness for C4 at `B = I = O = 1`, bias present, all accumulate flags set. -/
theorem armOnGrad_accumulate_semantics_witness :
    0 < 1 ∧
      (((true : Bool) = true → ∀ n, (armTwiceIP 1 1 1 true true true true zeroFun zeroFun zeroFun).2.wGrad n =
          2 * (armTwiceIP 1 1 1 true true true true zeroFun zeroFun zeroFun).1.wGrad n) ∧
        ((true : Bool) = false → ∀ n, n < 1 * 1 → (armTwiceIP 1 1 1 true true true true zeroFun zeroFun zeroFun).2.wGrad n =
          (armTwiceIP 1 1 1 true true true true zeroFun zeroFun zeroFun).1.wGrad n) ∧
        ((true : Bool) = true → ∀ n, (armTwiceIP 1 1 1 true true true true zeroFun zeroFun zeroFun).2.iGrad n =
          2 * (armTwiceIP 1 1 1 true true true true zeroFun zeroFun zeroFun).1.iGrad n) ∧
        ((true : Bool) = false → ∀ n, n < 1 * 1 → (armTwiceIP 1 1 1 true true true true zeroFun zeroFun zeroFun).2.iGrad n =
          (armTwiceIP 1 1 1 true true true true zeroFun zeroFun zeroFun).1.iGrad n) ∧
        ((true : Bool) = true → (true : Bool) = true → ∀ n, (armTwiceIP 1 1 1 true true true true zeroFun zeroFun zeroFun).2.bGrad n =
          2 * (armTwiceIP 1 1 1 true true true true zeroFun zeroFun zeroFun).1.bGrad n) ∧
        ((true : Bool) = true → (true : Bool) = false → ∀ n, n < 1 → (armTwiceIP 1 1 1 true true true true zeroFun zeroFun zeroFun).2.bGrad n =
          (armTwiceIP 1 1 1 true true true true zeroFun zeroFun zeroFun).1.bGrad n)) :=
  ⟨by decide, armOnGrad_accumulate_semantics 1 1 1 (by decide) true true true true zeroFun zeroFun zeroFun⟩

/-! ## Canonical-layout training gradient path (`inner_product_layer_grad.cc`)

`InnerProductLayerGrad::OnGrad` validates blob counts, data types, the
presence of param/resource and of the upstream output gradient, and the
weight byte size; it then re-expresses the input and output-gradient blobs
in canonical NCHW layout, runs the `j/k/i` triple accumulation loop over
freshly zero-initialized gradient buffers, and converts the input gradient
back to the blob's resident layout.

`ConvertToNCHW` / `ConvertToNC4HW4` live in `train/grad/utils.cc`, which is
not among the provided sources; they are modelled from the spec (§4.2,
§4.5): conversion away from the device-packed NC4HW4 layout before the
arithmetic, zero padding of the trailing `UP4 c - c` channel lanes on the
packed side, truncation on unpacking.  The inner-product blobs are 2-D
`[batch, channels]` (`H = W = 1`), for which the NC4HW4 flat index of
element `(n, c)` is `n * UP4 ch + c`. -/

/-- Round a channel count up to the pack width 4 (`ROUND_UP(c, 4)`). -/
def UP4 (c : ℕ) : ℕ := 4 * ((c + 3) / 4)

/-- Memory layouts relevant here (subset of TNN's `DataFormat`). -/
inductive TDataFormat where
  | nchw
  | nc4hw4
  deriving DecidableEq

/-- Modelled from the spec: `ConvertToNCHW(src, buffer, desc)` for a 2-D
`[batch, ch]` blob.  An NCHW-resident blob is read as is; an
NC4HW4-resident blob is deinterleaved so that canonical element `(n, c)`
(flat `n * ch + c`) comes from packed flat index `n * UP4 ch + c`. -/
def ConvertToNCHW (batch ch : ℕ) (fmt : TDataFormat) (f : ℕ → ℚ) : ℕ → ℚ :=
  match fmt with
  | .nchw => f
  | .nc4hw4 => fun n => f (n / ch * UP4 ch + n % ch)

/-- Modelled from the spec: `ConvertToNC4HW4(buffer, desc)` for a 2-D
`[batch, ch]` blob: identity for an NCHW-resident blob; otherwise packed
flat index `n * UP4 ch + c` takes canonical element `(n, c)` for `c < ch`
and the padding value 0 for the `ch ≤ c < UP4 ch` remainder lanes. -/
def ConvertToNC4HW4 (batch ch : ℕ) (fmt : TDataFormat) (f : ℕ → ℚ) : ℕ → ℚ :=
  match fmt with
  | .nchw => f
  | .nc4hw4 => fun n => if n % UP4 ch < ch then f (n / UP4 ch * ch + n % UP4 ch) else 0

/-- State of the three gradient buffers mutated by the triple loop. -/
structure GradState where
  w : ℕ → ℚ
  inp : ℕ → ℚ
  b : ℕ → ℚ

/-- Iteration sequence of the triple loop
`for j < output_count, for k < input_count, for i < input_batch`,
flattened in source order. -/
def tripleList (oc ic batch : ℕ) : List (ℕ × ℕ × ℕ) :=
  (List.range oc).flatMap fun j =>
    (List.range ic).flatMap fun k =>
      (List.range batch).map fun i => (j, k, i)

/-- Embeds one body execution of the triple loop (`j = t.1`, `k = t.2.1`,
`i = t.2.2`):
`weight_grad[j*ic+k] += output_grad[i*oc+j] * input[i*ic+k]`,
`input_grad[i*ic+k] += output_grad[i*oc+j] * weight[j*ic+k]`, and, when
the operator has a bias and `k == 0`,
`bias_grad[j] += output_grad[i*oc+j]`. -/
def gradBody (oc ic : ℕ) (has_bias : Bool) (og inputv weightv : ℕ → ℚ)
    (s : GradState) (t : ℕ × ℕ × ℕ) : GradState :=
  { w := upd s.w (t.1 * ic + t.2.1) (og (t.2.2 * oc + t.1) * inputv (t.2.2 * ic + t.2.1))
    inp := upd s.inp (t.2.2 * ic + t.2.1) (og (t.2.2 * oc + t.1) * weightv (t.1 * ic + t.2.1))
    b := if has_bias ∧ t.2.1 = 0 then upd s.b t.1 (og (t.2.2 * oc + t.1)) else s.b }

/-- Embeds the float compute section of `InnerProductLayerGrad::OnGrad`
(lines 102-121): the triple loop run over the three freshly allocated
gradient buffers, which start zeroed (`RawBuffer` zero-fills per spec §4.1;
the code comments "already init with 0.0"). -/
def gradLoop (batch oc ic : ℕ) (has_bias : Bool) (og inputv weightv : ℕ → ℚ) : GradState :=
  (tripleList oc ic batch).foldl (gradBody oc ic has_bias og inputv weightv)
    ⟨zeroFun, zeroFun, zeroFun⟩

/-- Error kinds of `InnerProductLayerGrad::OnGrad` (all `TNN_TRAIN_ERROR`
statuses, distinguished by message). -/
inductive TrainErr where
  | ioSizeMismatch
  | dtypeMismatch
  | paramOrResourceMissing
  | outputGradNotFound
  | resourceDtypeUnsupported
  | weightDimsError
  | bfp16NotSupported
  deriving DecidableEq

/-- Gradient buffers handed back to `UpdateGradValue` by a successful train
OnGrad call. -/
structure TrainGradOut where
  inputGrad : ℕ → ℚ
  weightGrad : ℕ → ℚ
  biasGrad : Option (ℕ → ℚ)

/-- Embeds `InnerProductLayerGrad::OnGrad`, checks in source order:
input/output blob counts; output dtype in `{BFP16, FLOAT}` and equal to the
input dtype; non-null param and resource; output gradient present in
`context.backward_grads_blob`; weight dtype `FLOAT`; weight byte size equal
to `output_count * input_count * GetBytesSize(FLOAT)` (= 4).  Then the
input and output-gradient blobs are converted to NCHW, the triple loop
runs for float data (bfp16 is rejected), and the computed input gradient is
converted back to the input blob's resident layout. -/
def InnerProductLayerGrad_OnGrad
    (numInputs numOutputs : ℕ)
    (inputDims : List ℕ)
    (inputDType outputDType : TDataType)
    (inputFmt ogFmt : TDataFormat)
    (paramPresent resourcePresent : Bool)
    (has_bias : Bool) (num_output : ℕ)
    (weightDType : TDataType) (weightBytes : ℕ)
    (outputGradFound : Bool)
    (inputPacked ogPacked weightv : ℕ → ℚ) : Except TrainErr TrainGradOut :=
  if numInputs ≠ 1 ∨ numOutputs ≠ 1 then .error .ioSizeMismatch
  else if (outputDType ≠ .bfp16 ∧ outputDType ≠ .float) ∨ inputDType ≠ outputDType then
    .error .dtypeMismatch
  else if ¬(paramPresent ∧ resourcePresent) then .error .paramOrResourceMissing
  else if ¬outputGradFound then .error .outputGradNotFound
  else
    let input_batch := getDim inputDims 0
    let input_count := countFrom1 inputDims
    let output_count := num_output
    if weightDType ≠ .float then .error .resourceDtypeUnsupported
    else if output_count * input_count * 4 ≠ weightBytes then .error .weightDimsError
    else
      let inputC := ConvertToNCHW input_batch input_count inputFmt inputPacked
      let ogC := ConvertToNCHW input_batch output_count ogFmt ogPacked
      if inputDType = .float then
        let st := gradLoop input_batch output_count input_count has_bias ogC inputC weightv
        .ok { inputGrad := ConvertToNC4HW4 input_batch input_count inputFmt st.inp
              weightGrad := st.w
              biasGrad := if has_bias then some st.b else none }
      else .error .bfp16NotSupported

/-- C5: a weight buffer whose declared size disagrees with
`output_width * input_width * size_of(dtype)` makes both gradient paths
fail with the shape-mismatch error ("weight dims error" /
"weight data count error") before any gradient arithmetic executes: the
train path returns the error without producing any gradient buffer, and
the ARM path returns with all three caller destinations untouched. -/
theorem onGrad_weight_shape_mismatch (B I O : ℕ)
    (inputFmt ogFmt : TDataFormat) (hb : Bool)
    (weightBytes : ℕ) (hw : O * I * 4 ≠ weightBytes)
    (weightDataCount : ℕ) (hwc : weightDataCount ≠ O * I)
    (aI aW aB : Bool) (inp og w : ℕ → ℚ) (d : ArmGradDsts) :
    InnerProductLayerGrad_OnGrad 1 1 [B, I] .float .float inputFmt ogFmt true true hb O
        .float weightBytes true inp og w = .error .weightDimsError ∧
      ArmInnerProductLayerGrad_OnGrad 1 1 2 true true true hb [B, I] [B, O] .float
        weightDataCount aI aW aB inp og w d = (some .weightDataCountError, d) := by
  constructor
  · unfold InnerProductLayerGrad_OnGrad
    simp [getDim, countFrom1, hw]
  · unfold ArmInnerProductLayerGrad_OnGrad
    simp [getDim, countFrom1, hwc]

/-- Witness for C5: `B = I = O = 1`, 5 declared weight bytes instead of 4,
weight element count 2 instead of 1. -/
theorem onGrad_weight_shape_mismatch_witness :
    (1 * 1 * 4 ≠ 5 ∧ 2 ≠ 1 * 1) ∧
      (InnerProductLayerGrad_OnGrad 1 1 [1, 1] .float .float .nchw .nchw true true false 1
          .float 5 true zeroFun zeroFun zeroFun = .error .weightDimsError ∧
        ArmInnerProductLayerGrad_OnGrad 1 1 2 true true true false [1, 1] [1, 1] .float
          2 false false false zeroFun zeroFun zeroFun ⟨zeroFun, zeroFun, zeroFun⟩ =
          (some .weightDataCountError, ⟨zeroFun, zeroFun, zeroFun⟩)) :=
  ⟨⟨by decide, by decide⟩,
    onGrad_weight_shape_mismatch 1 1 1 .nchw .nchw false 5 (by decide) 2 (by decide)
      false false false zeroFun zeroFun zeroFun ⟨zeroFun, zeroFun, zeroFun⟩⟩

/-- C8: an unsupported dtype makes both gradient paths fail cleanly with a
typed error and no numeric result: the train path accepts bfp16 through
its dtype-match check but rejects it at the compute branch
("don't support bft16 for now"), producing no gradient buffers; the ARM
path rejects every non-float32 dtype, leaving the caller's destination
buffers untouched. -/
theorem onGrad_unsupported_dtype_fails (B I O : ℕ)
    (inputFmt ogFmt : TDataFormat) (hb : Bool)
    (dtype : TDataType) (hd : dtype ≠ TDataType.float)
    (aI aW aB : Bool) (inp og w : ℕ → ℚ) (d : ArmGradDsts) :
    InnerProductLayerGrad_OnGrad 1 1 [B, I] .bfp16 .bfp16 inputFmt ogFmt true true hb O
        .float (O * I * 4) true inp og w = .error .bfp16NotSupported ∧
      ArmInnerProductLayerGrad_OnGrad 1 1 2 true true true hb [B, I] [B, O] dtype
        (O * I) aI aW aB inp og w d = (some .dtypeNotSupported, d) := by
  constructor
  · unfold InnerProductLayerGrad_OnGrad
    simp [getDim, countFrom1]
  · unfold ArmInnerProductLayerGrad_OnGrad
    simp [getDim, countFrom1, hd]

/-- Witness for C8: `B = I = O = 1`, bfp16 on the train path, int8 on the
ARM path. -/
theorem onGrad_unsupported_dtype_fails_witness :
    TDataType.int8 ≠ TDataType.float ∧
      (InnerProductLayerGrad_OnGrad 1 1 [1, 1] .bfp16 .bfp16 .nchw .nchw true true false 1
          .float (1 * 1 * 4) true zeroFun zeroFun zeroFun = .error .bfp16NotSupported ∧
        ArmInnerProductLayerGrad_OnGrad 1 1 2 true true true false [1, 1] [1, 1] .int8
          (1 * 1) false false false zeroFun zeroFun zeroFun ⟨zeroFun, zeroFun, zeroFun⟩ =
          (some .dtypeNotSupported, ⟨zeroFun, zeroFun, zeroFun⟩)) :=
  ⟨by decide,
    onGrad_unsupported_dtype_fails 1 1 1 .nchw .nchw false .int8 (by decide)
      false false false zeroFun zeroFun zeroFun ⟨zeroFun, zeroFun, zeroFun⟩⟩

theorem sum_map_range (n : ℕ) (g : ℕ → ℚ) :
    ((List.range n).map g).sum = ∑ i in Finset.range n, g i := by
  induction n with
  | zero => simp
  | succ m ih =>
    rw [List.range_succ, List.map_append, List.sum_append, Finset.sum_range_succ, ih]
    simp

theorem sum_map_flatMap {α β : Type} (l : List α) (f : α → List β) (g : β → ℚ) :
    ((l.flatMap f).map g).sum = (l.map (fun a => ((f a).map g).sum)).sum := by
  induction l with
  | nil => simp
  | cons a l ih =>
    rw [List.flatMap_cons, List.map_append, List.sum_append, List.map_cons, List.sum_cons, ih]

theorem gradBody_w (oc ic : ℕ) (hb : Bool) (og iv wv : ℕ → ℚ) (s : GradState) (t : ℕ × ℕ × ℕ) :
    (gradBody oc ic hb og iv wv s t).w =
      upd s.w (t.1 * ic + t.2.1) (og (t.2.2 * oc + t.1) * iv (t.2.2 * ic + t.2.1)) := rfl

theorem gradBody_inp (oc ic : ℕ) (hb : Bool) (og iv wv : ℕ → ℚ) (s : GradState) (t : ℕ × ℕ × ℕ) :
    (gradBody oc ic hb og iv wv s t).inp =
      upd s.inp (t.2.2 * ic + t.2.1) (og (t.2.2 * oc + t.1) * wv (t.1 * ic + t.2.1)) := rfl

theorem gradBody_b (oc ic : ℕ) (hb : Bool) (og iv wv : ℕ → ℚ) (s : GradState) (t : ℕ × ℕ × ℕ) :
    (gradBody oc ic hb og iv wv s t).b =
      upd s.b t.1 (if hb ∧ t.2.1 = 0 then og (t.2.2 * oc + t.1) else 0) := by
  by_cases h : hb ∧ t.2.1 = 0
  · simp [gradBody, h]
  · simp [gradBody, h, upd_zero]

theorem foldl_gradBody_w (oc ic : ℕ) (hb : Bool) (og iv wv : ℕ → ℚ)
    (L : List (ℕ × ℕ × ℕ)) (s : GradState) :
    (L.foldl (gradBody oc ic hb og iv wv) s).w =
      applyUpds (L.map fun t =>
        (t.1 * ic + t.2.1, og (t.2.2 * oc + t.1) * iv (t.2.2 * ic + t.2.1))) s.w := by
  induction L generalizing s with
  | nil => rfl
  | cons t L ih =>
    rw [List.foldl_cons, ih, List.map_cons]
    rfl

theorem foldl_gradBody_inp (oc ic : ℕ) (hb : Bool) (og iv wv : ℕ → ℚ)
    (L : List (ℕ × ℕ × ℕ)) (s : GradState) :
    (L.foldl (gradBody oc ic hb og iv wv) s).inp =
      applyUpds (L.map fun t =>
        (t.2.2 * ic + t.2.1, og (t.2.2 * oc + t.1) * wv (t.1 * ic + t.2.1))) s.inp := by
  induction L generalizing s with
  | nil => rfl
  | cons t L ih =>
    rw [List.foldl_cons, ih, List.map_cons]
    rfl

theorem foldl_gradBody_b (oc ic : ℕ) (hb : Bool) (og iv wv : ℕ → ℚ)
    (L : List (ℕ × ℕ × ℕ)) (s : GradState) :
    (L.foldl (gradBody oc ic hb og iv wv) s).b =
      applyUpds (L.map fun t =>
        (t.1, if hb ∧ t.2.1 = 0 then og (t.2.2 * oc + t.1) else 0)) s.b := by
  induction L generalizing s with
  | nil => rfl
  | cons t L ih =>
    rw [List.foldl_cons, ih, List.map_cons]
    show applyUpds _ (gradBody oc ic hb og iv wv s t).b = _
    rw [gradBody_b]
    rfl

theorem flatIdx_inj (ic j j' k k' : ℕ) (hk : k < ic) (hk' : k' < ic) :
    j' * ic + k' = j * ic + k ↔ j' = j ∧ k' = k := by
  constructor
  · intro h
    have hic : 0 < ic := Nat.pos_of_ne_zero (by omega)
    have hm : k' = k := by
      have e1 : (j' * ic + k') % ic = k' := by
        rw [Nat.add_comm, Nat.add_mul_mod_self_right, Nat.mod_eq_of_lt hk']
      have e2 : (j * ic + k) % ic = k := by
        rw [Nat.add_comm, Nat.add_mul_mod_self_right, Nat.mod_eq_of_lt hk]
      rw [← e1, ← e2, h]
    subst hm
    have hj : j' = j := by
      have h2 : j' * ic = j * ic := by omega
      exact Nat.eq_of_mul_eq_mul_right hic h2
    exact ⟨hj, rfl⟩
  · rintro ⟨rfl, rfl⟩
    rfl

theorem sum_ite_const_cond (n : ℕ) (c : Prop) [Decidable c] (V : ℕ → ℚ) :
    (∑ i in Finset.range n, if c then V i else 0) =
      if c then (∑ i in Finset.range n, V i) else 0 := by
  by_cases h : c
  · simp [h]
  · simp [h]

theorem sum_triple_collapse_jk (oc ic batch : ℕ) (V : ℕ → ℕ → ℕ → ℚ) (j k : ℕ)
    (hj : j < oc) (hk : k < ic) :
    (∑ x in Finset.range oc, ∑ y in Finset.range ic, ∑ z in Finset.range batch,
        if x * ic + y = j * ic + k then V x y z else 0) =
      ∑ z in Finset.range batch, V j k z := by
  have step1 : (∑ x in Finset.range oc, ∑ y in Finset.range ic, ∑ z in Finset.range batch,
        if x * ic + y = j * ic + k then V x y z else 0) =
      ∑ x in Finset.range oc, ∑ y in Finset.range ic,
        if x = j then (if y = k then ∑ z in Finset.range batch, V x y z else 0) else 0 := by
    refine Finset.sum_congr rfl fun x _ => Finset.sum_congr rfl fun y hy => ?_
    have hy' : y < ic := Finset.mem_range.1 hy
    rw [sum_ite_const_cond]
    by_cases hq : x = j ∧ y = k
    · rw [if_pos ((flatIdx_inj ic j x k y hk hy').2 hq), if_pos hq.1, if_pos hq.2]
    · rw [if_neg fun hh => hq ((flatIdx_inj ic j x k y hk hy').1 hh)]
      by_cases hx : x = j
      · rw [if_pos hx, if_neg fun hh => hq ⟨hx, hh⟩]
      · rw [if_neg hx]
  rw [step1]
  have step2 : ∀ x ∈ Finset.range oc,
      (∑ y in Finset.range ic,
        if x = j then (if y = k then ∑ z in Finset.range batch, V x y z else 0) else 0) =
      if x = j then ∑ z in Finset.range batch, V x k z else 0 := by
    intro x _
    rw [sum_ite_const_cond]
    by_cases hx : x = j
    · rw [if_pos hx, if_pos hx, Finset.sum_ite_eq' (Finset.range ic) k
        (fun y => ∑ z in Finset.range batch, V x y z), if_pos (Finset.mem_range.2 hk)]
    · rw [if_neg hx, if_neg hx]
  rw [Finset.sum_congr rfl step2, Finset.sum_ite_eq' (Finset.range oc) j
    (fun x => ∑ z in Finset.range batch, V x k z), if_pos (Finset.mem_range.2 hj)]

theorem sum_triple_collapse_ik (oc ic batch : ℕ) (V : ℕ → ℕ → ℕ → ℚ) (i k : ℕ)
    (hi : i < batch) (hk : k < ic) :
    (∑ x in Finset.range oc, ∑ y in Finset.range ic, ∑ z in Finset.range batch,
        if z * ic + y = i * ic + k then V x y z else 0) =
      ∑ x in Finset.range oc, V x k i := by
  refine Finset.sum_congr rfl fun x _ => ?_
  have step1 : (∑ y in Finset.range ic, ∑ z in Finset.range batch,
        if z * ic + y = i * ic + k then V x y z else 0) =
      ∑ y in Finset.range ic,
        if y = k then (∑ z in Finset.range batch, if z = i then V x y z else 0) else 0 := by
    refine Finset.sum_congr rfl fun y hy => ?_
    have hy' : y < ic := Finset.mem_range.1 hy
    by_cases hyk : y = k
    · rw [if_pos hyk]
      refine Finset.sum_congr rfl fun z _ => ?_
      by_cases hzi : z = i
      · rw [if_pos ((flatIdx_inj ic i z k y hk hy').2 ⟨hzi, hyk⟩), if_pos hzi]
      · rw [if_neg fun hh => hzi ((flatIdx_inj ic i z k y hk hy').1 hh).1, if_neg hzi]
    · rw [if_neg hyk]
      refine Finset.sum_eq_zero fun z _ => ?_
      rw [if_neg fun hh => hyk ((flatIdx_inj ic i z k y hk hy').1 hh).2]
  rw [step1, Finset.sum_ite_eq' (Finset.range ic) k
    (fun y => ∑ z in Finset.range batch, if z = i then V x y z else 0),
    if_pos (Finset.mem_range.2 hk),
    Finset.sum_ite_eq' (Finset.range batch) i (fun z => V x k z),
    if_pos (Finset.mem_range.2 hi)]

theorem sum_triple_collapse_j (oc ic batch : ℕ) (V : ℕ → ℕ → ℚ) (j : ℕ)
    (hj : j < oc) (hic : 0 < ic) :
    (∑ x in Finset.range oc, ∑ y in Finset.range ic, ∑ z in Finset.range batch,
        if x = j then (if y = 0 then V x z else 0) else 0) =
      ∑ z in Finset.range batch, V j z := by
  have step1 : ∀ x ∈ Finset.range oc,
      (∑ y in Finset.range ic, ∑ z in Finset.range batch,
        if x = j then (if y = 0 then V x z else 0) else 0) =
      if x = j then ∑ z in Finset.range batch, V x z else 0 := by
    intro x _
    by_cases hx : x = j
    · rw [if_pos hx]
      have inner : ∀ y ∈ Finset.range ic,
          (∑ z in Finset.range batch, if x = j then (if y = 0 then V x z else 0) else 0) =
          if y = 0 then ∑ z in Finset.range batch, V x z else 0 := by
        intro y _
        rw [← sum_ite_const_cond]
        refine Finset.sum_congr rfl fun z _ => ?_
        rw [if_pos hx]
      rw [Finset.sum_congr rfl inner, Finset.sum_ite_eq' (Finset.range ic) 0
        (fun _ => ∑ z in Finset.range batch, V x z), if_pos (Finset.mem_range.2 hic)]
    · rw [if_neg hx]
      refine Finset.sum_eq_zero fun y _ => Finset.sum_eq_zero fun z _ => ?_
      rw [if_neg hx]
  rw [Finset.sum_congr rfl step1, Finset.sum_ite_eq' (Finset.range oc) j
    (fun x => ∑ z in Finset.range batch, V x z), if_pos (Finset.mem_range.2 hj)]

theorem sum_map_tripleList (oc ic batch : ℕ) (g : ℕ × ℕ × ℕ → ℚ) :
    ((tripleList oc ic batch).map g).sum =
      ∑ x in Finset.range oc, ∑ y in Finset.range ic, ∑ z in Finset.range batch, g (x, y, z) := by
  unfold tripleList
  rw [sum_map_flatMap, sum_map_range]
  refine Finset.sum_congr rfl fun x _ => ?_
  rw [sum_map_flatMap, sum_map_range]
  refine Finset.sum_congr rfl fun y _ => ?_
  rw [List.map_map, sum_map_range]
  rfl

/-- The triple loop computes §4.5's weight-gradient formula:
`weight_grad[j, k] = Σ_i output_grad[i, j] * input[i, k]`. -/
theorem gradLoop_w (batch oc ic : ℕ) (hb : Bool) (og iv wv : ℕ → ℚ) (j k : ℕ)
    (hj : j < oc) (hk : k < ic) :
    (gradLoop batch oc ic hb og iv wv).w (j * ic + k) =
      ∑ i in Finset.range batch, og (i * oc + j) * iv (i * ic + k) := by
  have h0 : (gradLoop batch oc ic hb og iv wv).w (j * ic + k) =
      (((tripleList oc ic batch).map fun t =>
          (t.1 * ic + t.2.1, og (t.2.2 * oc + t.1) * iv (t.2.2 * ic + t.2.1))).map
        (fun p => if p.1 = j * ic + k then p.2 else 0)).sum := by
    unfold gradLoop
    rw [foldl_gradBody_w, applyUpds_apply]
    simp [zeroFun]
  rw [h0, List.map_map, sum_map_tripleList]
  exact sum_triple_collapse_jk oc ic batch
    (fun x y z => og (z * oc + x) * iv (z * ic + y)) j k hj hk

/-- The triple loop computes §4.5's input-gradient formula:
`input_grad[i, k] = Σ_j output_grad[i, j] * weight[j, k]`. -/
theorem gradLoop_inp (batch oc ic : ℕ) (hb : Bool) (og iv wv : ℕ → ℚ) (i k : ℕ)
    (hi : i < batch) (hk : k < ic) :
    (gradLoop batch oc ic hb og iv wv).inp (i * ic + k) =
      ∑ j in Finset.range oc, og (i * oc + j) * wv (j * ic + k) := by
  have h0 : (gradLoop batch oc ic hb og iv wv).inp (i * ic + k) =
      (((tripleList oc ic batch).map fun t =>
          (t.2.2 * ic + t.2.1, og (t.2.2 * oc + t.1) * wv (t.1 * ic + t.2.1))).map
        (fun p => if p.1 = i * ic + k then p.2 else 0)).sum := by
    unfold gradLoop
    rw [foldl_gradBody_inp, applyUpds_apply]
    simp [zeroFun]
  rw [h0, List.map_map, sum_map_tripleList]
  exact sum_triple_collapse_ik oc ic batch
    (fun x y z => og (z * oc + x) * wv (x * ic + y)) i k hi hk

/-- The triple loop computes §4.5's bias-gradient formula when the operator
has a bias and the input width is positive (the `k == 0` guard fires once
per `(j, i)`): `bias_grad[j] = Σ_i output_grad[i, j]`. -/
theorem gradLoop_b (batch oc ic : ℕ) (og iv wv : ℕ → ℚ) (j : ℕ)
    (hj : j < oc) (hic : 0 < ic) :
    (gradLoop batch oc ic true og iv wv).b j =
      ∑ i in Finset.range batch, og (i * oc + j) := by
  have h0 : (gradLoop batch oc ic true og iv wv).b j =
      (((tripleList oc ic batch).map fun t =>
          (t.1, if (true : Bool) ∧ t.2.1 = 0 then og (t.2.2 * oc + t.1) else 0)).map
        (fun p => if p.1 = j then p.2 else 0)).sum := by
    unfold gradLoop
    rw [foldl_gradBody_b, applyUpds_apply]
    simp [zeroFun]
  rw [h0, List.map_map, sum_map_tripleList]
  have hsimp : ∀ x y z : ℕ,
      ((fun p => if p.1 = j then p.2 else 0) ∘ fun t : ℕ × ℕ × ℕ =>
        (t.1, if (true : Bool) ∧ t.2.1 = 0 then og (t.2.2 * oc + t.1) else 0)) (x, y, z) =
      if x = j then (if y = 0 then og (z * oc + x) else 0) else 0 := by
    intro x y z
    simp
  calc (∑ x in Finset.range oc, ∑ y in Finset.range ic, ∑ z in Finset.range batch,
        ((fun p => if p.1 = j then p.2 else 0) ∘ fun t : ℕ × ℕ × ℕ =>
          (t.1, if (true : Bool) ∧ t.2.1 = 0 then og (t.2.2 * oc + t.1) else 0)) (x, y, z))
      = ∑ x in Finset.range oc, ∑ y in Finset.range ic, ∑ z in Finset.range batch,
          if x = j then (if y = 0 then og (z * oc + x) else 0) else 0 := by
        refine Finset.sum_congr rfl fun x _ => Finset.sum_congr rfl fun y _ =>
          Finset.sum_congr rfl fun z _ => hsimp x y z
    _ = ∑ i in Finset.range batch, og (i * oc + j) :=
        sum_triple_collapse_j oc ic batch (fun x z => og (z * oc + x)) j hj hic

theorem packIdx_mod (U c b : ℕ) (h : c < U) : (b * U + c) % U = c := by
  rw [Nat.add_comm, Nat.add_mul_mod_self_right, Nat.mod_eq_of_lt h]

theorem packIdx_div (U c b : ℕ) (h : c < U) : (b * U + c) / U = b := by
  have hU : 0 < U := by omega
  rw [Nat.mul_comm b U, Nat.mul_add_div hU, Nat.div_eq_of_lt h, Nat.add_zero]

theorem le_UP4 (c : ℕ) : c ≤ UP4 c := by
  unfold UP4
  omega

/-- A well-formed float call on the train path succeeds and produces exactly
the conversion-compute-conversion pipeline. -/
theorem trainOnGrad_ok (B I O : ℕ) (hb : Bool) (fi fo : TDataFormat)
    (inp og w : ℕ → ℚ) :
    InnerProductLayerGrad_OnGrad 1 1 [B, I] .float .float fi fo true true hb O .float
        (O * I * 4) true inp og w =
      .ok { inputGrad := ConvertToNC4HW4 B I fi
              ((gradLoop B O I hb (ConvertToNCHW B O fo og) (ConvertToNCHW B I fi inp) w).inp)
            weightGrad :=
              (gradLoop B O I hb (ConvertToNCHW B O fo og) (ConvertToNCHW B I fi inp) w).w
            biasGrad := if hb then
              some ((gradLoop B O I hb (ConvertToNCHW B O fo og) (ConvertToNCHW B I fi inp) w).b)
              else none } := by
  unfold InnerProductLayerGrad_OnGrad
  simp [getDim, countFrom1]

/-- C2: when the input and output-gradient blobs reside in the packed NC4HW4
layout, a successful train OnGrad call computes on the canonical-layout
values (every value the loop reads is the converted one: the sums below
range over canonical elements, fetched through the packed-to-canonical
index maps) and hands back the input gradient converted to the resident
packed layout, with zeroed padding lanes.  Concretely, at packed flat index
`b * UP4 I + k`: the input gradient is `Σ_o output_grad[b,o] * weight[o,k]`
(output-gradient values read at their packed positions `b * UP4 O + o`);
padding lanes `I ≤ c < UP4 I` are 0; the weight gradient at `[j, k]` is
`Σ_b output_grad[b,j] * input[b,k]` with both factors read through the
conversion; the bias gradient (bias present, `0 < I`) is `Σ_b output_grad[b,j]`. -/
theorem trainOnGrad_packed_canonical (B I O : ℕ) (hb : Bool)
    (inputPacked ogPacked weightv : ℕ → ℚ) (out : TrainGradOut)
    (h : InnerProductLayerGrad_OnGrad 1 1 [B, I] .float .float .nc4hw4 .nc4hw4 true true hb O
        .float (O * I * 4) true inputPacked ogPacked weightv = .ok out) :
    (∀ b < B, ∀ k < I, out.inputGrad (b * UP4 I + k) =
        ∑ j in Finset.range O, ogPacked (b * UP4 O + j) * weightv (j * I + k)) ∧
      (∀ b < B, ∀ c, I ≤ c → c < UP4 I → out.inputGrad (b * UP4 I + c) = 0) ∧
      (∀ j < O, ∀ k < I, out.weightGrad (j * I + k) =
        ∑ b in Finset.range B, ogPacked (b * UP4 O + j) * inputPacked (b * UP4 I + k)) ∧
      (hb = true → 0 < I → ∀ j < O, ∀ bg, out.biasGrad = some bg →
        bg j = ∑ i in Finset.range B, ogPacked (i * UP4 O + j)) := by
  rw [trainOnGrad_ok] at h
  have hout := (Except.ok.inj h).symm
  subst hout
  have hogC : ∀ b j : ℕ, j < O →
      ConvertToNCHW B O .nc4hw4 ogPacked (b * O + j) = ogPacked (b * UP4 O + j) := by
    intro b j hj
    simp only [ConvertToNCHW]
    rw [packIdx_div O j b hj, packIdx_mod O j b hj]
  have hinpC : ∀ b k : ℕ, k < I →
      ConvertToNCHW B I .nc4hw4 inputPacked (b * I + k) = inputPacked (b * UP4 I + k) := by
    intro b k hk
    simp only [ConvertToNCHW]
    rw [packIdx_div I k b hk, packIdx_mod I k b hk]
  refine ⟨?_, ?_, ?_, ?_⟩
  · intro b hbB k hk
    have hkU : k < UP4 I := lt_of_lt_of_le hk (le_UP4 I)
    show ConvertToNC4HW4 B I .nc4hw4 _ (b * UP4 I + k) = _
    simp only [ConvertToNC4HW4]
    rw [packIdx_mod (UP4 I) k b hkU, packIdx_div (UP4 I) k b hkU, if_pos hk,
      gradLoop_inp B O I hb _ _ _ b k hbB hk]
    refine Finset.sum_congr rfl fun j hj => ?_
    rw [hogC b j (Finset.mem_range.1 hj)]
  · intro b hbB c hcI hcU
    show ConvertToNC4HW4 B I .nc4hw4 _ (b * UP4 I + c) = 0
    simp only [ConvertToNC4HW4]
    rw [packIdx_mod (UP4 I) c b hcU, if_neg (by omega)]
  · intro j hj k hk
    show (gradLoop B O I hb _ _ _).w (j * I + k) = _
    rw [gradLoop_w B O I hb _ _ _ j k hj hk]
    refine Finset.sum_congr rfl fun b hbB => ?_
    rw [hogC b j hj, hinpC b k hk]
  · intro hbt hI j hj bg hbg
    subst hbt
    have hbg' : (gradLoop B O I true (ConvertToNCHW B O .nc4hw4 ogPacked)
        (ConvertToNCHW B I .nc4hw4 inputPacked) weightv).b = bg := by
      have := hbg
      simp only [if_pos rfl] at this
      exact Option.some.inj this
    rw [← hbg', gradLoop_b B O I _ _ _ j hj hI]
    refine Finset.sum_congr rfl fun i _ => ?_
    rw [hogC i j hj]

/-- Output record produced by the C2 witness call. -/
def c2Out : TrainGradOut :=
  { inputGrad := ConvertToNC4HW4 1 1 .nc4hw4
      ((gradLoop 1 1 1 true (ConvertToNCHW 1 1 .nc4hw4 zeroFun)
        (ConvertToNCHW 1 1 .nc4hw4 zeroFun) zeroFun).inp)
    weightGrad := (gradLoop 1 1 1 true (ConvertToNCHW 1 1 .nc4hw4 zeroFun)
      (ConvertToNCHW 1 1 .nc4hw4 zeroFun) zeroFun).w
    biasGrad := some ((gradLoop 1 1 1 true (ConvertToNCHW 1 1 .nc4hw4 zeroFun)
      (ConvertToNCHW 1 1 .nc4hw4 zeroFun) zeroFun).b) }

/-- Witness for C2 at `B = I = O = 1`, bias present, packed-resident blobs. -/
theorem trainOnGrad_packed_canonical_witness :
    (InnerProductLayerGrad_OnGrad 1 1 [1, 1] .float .float .nc4hw4 .nc4hw4 true true true 1
        .float (1 * 1 * 4) true zeroFun zeroFun zeroFun = .ok c2Out) ∧
      ((∀ b < 1, ∀ k < 1, c2Out.inputGrad (b * UP4 1 + k) =
          ∑ j in Finset.range 1, zeroFun (b * UP4 1 + j) * zeroFun (j * 1 + k)) ∧
        (∀ b < 1, ∀ c, 1 ≤ c → c < UP4 1 → c2Out.inputGrad (b * UP4 1 + c) = 0) ∧
        (∀ j < 1, ∀ k < 1, c2Out.weightGrad (j * 1 + k) =
          ∑ b in Finset.range 1, zeroFun (b * UP4 1 + j) * zeroFun (b * UP4 1 + k)) ∧
        ((true : Bool) = true → 0 < 1 → ∀ j < 1, ∀ bg, c2Out.biasGrad = some bg →
          bg j = ∑ i in Finset.range 1, zeroFun (i * UP4 1 + j))) := by
  have hOk : InnerProductLayerGrad_OnGrad 1 1 [1, 1] .float .float .nc4hw4 .nc4hw4 true true
      true 1 .float (1 * 1 * 4) true zeroFun zeroFun zeroFun = .ok c2Out := rfl
  exact ⟨hOk, trainOnGrad_packed_canonical 1 1 1 true zeroFun zeroFun zeroFun c2Out hOk⟩
